import Mathlib

/-!
Verification of the mydrive-backend core: a shallow embedding of the
file/folder hierarchy, version chain and sharing logic of
`app/main.py`, `app/utils/versioning.py` and `app/models.py`.

The relational store is modelled as explicit lists of rows (`DB`).
SQLAlchemy queries (`filter`/`first`) become `List.filter` / `List.find?`,
`db.add` appends a row, bulk `update` maps over rows, `db.delete` erases
the first matching row.  The blob store (S3 / local files) and HTTP
plumbing are external collaborators: blob reads/writes and `os.path`
checks are modelled by the sizes and paths that the code records in the
database, plus an explicit `disk : String → Bool` oracle where an
endpoint consults `os.path.exists`.  HTTP errors are an inductive
`ApiErr` (404 / 403 / 400).
-/

deriving instance DecidableEq for Except

namespace MyDrive

/-- FileType from models.py: a row of `files` is a file or a folder
(`type` column, values 'file' / 'folder'). -/
inductive FType where
  | file
  | folder
deriving DecidableEq, Repr

/-- PermissionType from models.py: READ = "read", WRITE = "write",
ADMIN = "admin".  These are the only values the `file_shares.permission`
column can hold. -/
inductive Perm where
  | read
  | write
  | admin
deriving DecidableEq, Repr

/-- The string value of a PermissionType member, as stored in the
`permission` column and compared by the endpoints. -/
def Perm.val : Perm → String
  | .read => "read"
  | .write => "write"
  | .admin => "admin"

/-- User row (models.User): only the columns the claims touch. -/
structure UserRec where
  id : Nat
  email : String
deriving DecidableEq, Repr

/-- File row (models.File): one node of the item tree.  `filePath`,
`fileSize` are null for folders; `isShared` defaults to false;
`parentId` null means root. -/
structure FileRec where
  id : Nat
  filename : String
  filePath : Option String
  fileSize : Option Nat
  ownerId : Nat
  isShared : Bool
  type : FType
  parentId : Option Nat
deriving DecidableEq, Repr

/-- FileVersion row (models.FileVersion).  `isCurrent` has column
default False; `createdBy` is nullable. -/
structure VersionRec where
  fileId : Nat
  versionNumber : Nat
  filePath : String
  fileSize : Nat
  comment : Option String
  createdBy : Option Nat
  isCurrent : Bool
deriving DecidableEq, Repr

/-- FileShare row (models.FileShare). -/
structure ShareRec where
  fileId : Nat
  sharedWithId : Nat
  permission : Perm
deriving DecidableEq, Repr

/-- The relational store: the four tables the core logic touches. -/
structure DB where
  users : List UserRec
  files : List FileRec
  versions : List VersionRec
  shares : List ShareRec
deriving DecidableEq, Repr

/-- HTTPException outcomes of the endpoints: 404, 403 and 400 (the
spec's NotFound / Forbidden / InvalidOperation; `ValueError`s raised by
utils/versioning.py are mapped to 400 by the endpoints). -/
inductive ApiErr where
  | notFound
  | forbidden
  | invalidOperation
deriving DecidableEq, Repr

/-- Query `File` by primary key: `db.query(File).filter(File.id == fid).first()`. -/
def findFile (db : DB) (fid : Nat) : Option FileRec :=
  db.files.find? (fun f => f.id == fid)

/-- Query a folder owned by a user:
`filter(File.id == tid, File.owner_id == uid, File.type == 'folder').first()`. -/
def findOwnedFolder (db : DB) (tid uid : Nat) : Option FileRec :=
  db.files.find? (fun f => f.id == tid && f.ownerId == uid && f.type == FType.folder)

/-- Query `User` by email: `filter(User.email == email).first()`. -/
def findUserByEmail (db : DB) (email : String) : Option UserRec :=
  db.users.find? (fun u => u.email == email)

/-- Query a share row for an (item, grantee) pair:
`filter(FileShare.file_id == fid, FileShare.shared_with_id == uid).first()`. -/
def findShare (db : DB) (fid uid : Nat) : Option ShareRec :=
  db.shares.find? (fun s => s.fileId == fid && s.sharedWithId == uid)

/-- Query a share row carrying permission 'edit' for an (item, grantee)
pair (`filter(..., FileShare.permission == 'edit').first()`), the check
used by the create-version and restore endpoints. -/
def findEditShare (db : DB) (fid uid : Nat) : Option ShareRec :=
  db.shares.find? (fun s =>
    s.fileId == fid && s.sharedWithId == uid && s.permission.val == "edit")

/-- Query a version row by (file, version_number):
`filter(FileVersion.file_id == fid, FileVersion.version_number == n).first()`. -/
def findVersion (db : DB) (fid n : Nat) : Option VersionRec :=
  db.versions.find? (fun v => v.fileId == fid && v.versionNumber == n)

/-- All version rows of a file: `filter(FileVersion.file_id == fid)`. -/
def file_versions (db : DB) (fid : Nat) : List VersionRec :=
  db.versions.filter (fun v => v.fileId == fid)

/-- The version numbers of a file, in row-insertion order. -/
def vnums (db : DB) (fid : Nat) : List Nat :=
  (file_versions db fid).map (fun v => v.versionNumber)

/-- Maximum of a list of naturals (0 on the empty list). -/
def natMaxList (l : List Nat) : Nat := l.foldr max 0

/-- The version_number of the row returned by
`order_by(FileVersion.version_number.desc()).first()`: the largest
version_number of the file, none when the file has no versions. -/
def latest_version_number (db : DB) (fid : Nat) : Option Nat :=
  match file_versions db fid with
  | [] => none
  | vs => some (natMaxList (vs.map (fun v => v.versionNumber)))

/-- Autoincremented primary key for a fresh `files` row. -/
def freshFileId (db : DB) : Nat :=
  natMaxList (db.files.map (fun f => f.id)) + 1

/-- create_version from utils/versioning.py: compute the next
version_number (latest + 1, or 1 when no version exists), snapshot the
file's current blob under a fresh version path, mark every existing
version of the file not current, and append the new row with
is_current=True.  Returns the new row and the updated store. -/
def create_version (db : DB) (file : FileRec) (userId : Nat)
    (comment : Option String) : VersionRec × DB :=
  let new_version_number :=
    match latest_version_number db file.id with
    | none => 1
    | some m => m + 1
  let version : VersionRec :=
    { fileId := file.id
      versionNumber := new_version_number
      filePath := "v" ++ toString new_version_number ++ "_" ++ file.filePath.getD ""
      fileSize := file.fileSize.getD 0
      comment := comment
      createdBy := some userId
      isCurrent := true }
  let cleared := db.versions.map (fun w =>
    if w.fileId == file.id then { w with isCurrent := false } else w)
  (version, { db with versions := cleared ++ [version] })

/-- restore_version from utils/versioning.py: copy the target version's
blob over the file's current blob (so the content create_version will
snapshot — and hence the recorded size — is the target version's), then
delegate to create_version with comment "Restored from version N". -/
def restore_version (db : DB) (version : VersionRec) (userId : Nat) :
    Except ApiErr (VersionRec × DB) :=
  match findFile db version.fileId with
  | none => .error .notFound
  | some file =>
    .ok (create_version db { file with fileSize := some version.fileSize } userId
      (some ("Restored from version " ++ toString version.versionNumber)))

/-- upload_file from main.py, database part: validate the parent folder
(404 when missing, not owned, or not a folder), insert the `files` row
(type 'file', is_shared default false), and insert the initial
FileVersion with version_number=1 — note is_current is not passed, so it
takes the column default False.  The S3 upload and content-type
validation are blob-store collaborators outside the store. -/
def insertUploaded (db : DB) (userId : Nat) (filename : String)
    (fileSize : Nat) (parentId : Option Nat) : DB :=
  let fid := freshFileId db
  let f : FileRec :=
    { id := fid, filename := filename, filePath := some filename
      fileSize := some fileSize, ownerId := userId, isShared := false
      type := FType.file, parentId := parentId }
  let v : VersionRec :=
    { fileId := fid, versionNumber := 1, filePath := filename
      fileSize := fileSize, comment := none, createdBy := none
      isCurrent := false }
  { db with files := db.files ++ [f], versions := db.versions ++ [v] }

/-- upload_file endpoint wrapper: the parent check then the insert. -/
def upload_file (db : DB) (userId : Nat) (filename : String)
    (fileSize : Nat) (parentId : Option Nat) : Except ApiErr DB :=
  match parentId with
  | some pid =>
    match findOwnedFolder db pid userId with
    | none => .error .notFound
    | some _ => .ok (insertUploaded db userId filename fileSize parentId)
  | none => .ok (insertUploaded db userId filename fileSize none)

/-- Authorization check shared by the create-version and restore
endpoints (main.py): the actor must own the file, or hold a share on it
whose permission equals the string 'edit' — a value PermissionType
cannot store, see `Perm.val`. -/
def authorized_edit (db : DB) (fileObj : FileRec) (uid : Nat) : Bool :=
  fileObj.ownerId == uid || (findEditShare db fileObj.id uid).isSome

/-- create_file_version endpoint (main.py): look up the file (404),
authorize (owner or 'edit' share, else 403), check the current blob
exists on disk (404 'Original file not found'), create the version via
utils create_version, overwrite the blob with the new content and record
its size on the file row.  `newSize` is the uploaded content length,
`disk` the os.path.exists oracle. -/
def create_file_version (db : DB) (fileId uid : Nat)
    (comment : Option String) (newSize : Nat) (disk : String → Bool) :
    Except ApiErr (VersionRec × DB) :=
  match findFile db fileId with
  | none => .error .notFound
  | some fileObj =>
    if authorized_edit db fileObj uid then
      if fileObj.filePath.elim false disk then
        let vdb := create_version db fileObj uid comment
        .ok (vdb.1,
          { vdb.2 with files := vdb.2.files.map (fun f =>
              if f.id == fileObj.id then { f with fileSize := some newSize } else f) })
      else .error .notFound
    else .error .forbidden

/-- restore_file_version endpoint (main.py): look up the version (404)
and the file (404), authorize (owner or 'edit' share, else 403), copy
the version's blob over the file's blob, bulk-update is_current=False on
every version of the file, then set is_current=True on the fetched row
and commit.  No new Version row is created and utils restore_version is
never called; the fetched (pre-existing) row is returned. -/
def restore_file_version (db : DB) (fileId versionNumber uid : Nat) :
    Except ApiErr (VersionRec × DB) :=
  match findVersion db fileId versionNumber with
  | none => .error .notFound
  | some version =>
    match findFile db fileId with
    | none => .error .notFound
    | some file =>
      if authorized_edit db file uid then
        .ok ({ version with isCurrent := true },
          { db with versions := db.versions.map (fun v =>
              if v.fileId == fileId then
                (if v.versionNumber == versionNumber then { v with isCurrent := true }
                 else { v with isCurrent := false })
              else v) })
      else .error .forbidden

/-- delete_version from utils/versioning.py: find the version (ValueError
when absent), refuse when its version_number equals the file's largest
version_number (ValueError 'Cannot delete the current version of a
file'), else delete the blob (best effort) and erase the row.  The
endpoint maps ValueError to HTTP 400, our `invalidOperation`. -/
def delete_version (db : DB) (file : FileRec) (versionNumber : Nat) :
    Except ApiErr DB :=
  match findVersion db file.id versionNumber with
  | none => .error .invalidOperation
  | some version =>
    match latest_version_number db file.id with
    | some m =>
      if version.versionNumber == m then .error .invalidOperation
      else .ok { db with versions := db.versions.eraseP (fun v =>
        v.fileId == file.id && v.versionNumber == versionNumber) }
    | none => .ok { db with versions := db.versions.eraseP (fun v =>
        v.fileId == file.id && v.versionNumber == versionNumber) }

/-- delete_file_version endpoint (main.py): look up the file (404),
require ownership (403 — no share grants deletion), look up the version
(404), refuse when its version_number equals the file's largest
version_number (400), else delegate to utils delete_version (whose
ValueErrors map to 400). -/
def delete_file_version (db : DB) (fileId versionNumber uid : Nat) :
    Except ApiErr DB :=
  match findFile db fileId with
  | none => .error .notFound
  | some file =>
    if file.ownerId != uid then .error .forbidden
    else
      match findVersion db fileId versionNumber with
      | none => .error .notFound
      | some version =>
        match latest_version_number db fileId with
        | some m =>
          if version.versionNumber == m then .error .invalidOperation
          else delete_version db file versionNumber
        | none => delete_version db file versionNumber

/-- One step of the upward ancestor walk in move_item: from the current
row, follow parent_id; the SQL lookup yields none at the root or on a
dangling parent reference. -/
def nextParent (db : DB) (cur : FileRec) : Option FileRec :=
  match cur.parentId with
  | none => none
  | some p => findFile db p

/-- The move_item cycle check: walk upward from the target parent via
parent_id links and report whether the walk encounters `target`.  The
Python while-loop carries no bound; under invariant I1 an upward chain
of distinct rows has length at most the number of `files` rows, so
move_item runs the walk with fuel `db.files.length + 1`, which only
serves to make the function total. -/
def walk_up (db : DB) : Nat → Option FileRec → Nat → Bool
  | 0, _, _ => false
  | _ + 1, none, _ => false
  | fuel + 1, some cur, target =>
    if cur.id == target then true
    else walk_up db fuel (nextParent db cur) target

/-- Mutation step of move_item: set the moved row's parent_id. -/
def setParent (db : DB) (itemId : Nat) (pid : Option Nat) : DB :=
  { db with files := db.files.map (fun f =>
      if f.id == itemId then { f with parentId := pid } else f) }

/-- move_item endpoint (main.py): look up the item (404), require
ownership (403), validate a non-null target parent (owned folder, 404),
run the upward cycle check from the target parent (400 'Cannot move an
item into itself or a descendant'), then — only after every check
passed — set parent_id.  An error therefore leaves the store untouched. -/
def move_item (db : DB) (uid itemId : Nat) (targetParentId : Option Nat) :
    Except ApiErr DB :=
  match findFile db itemId with
  | none => .error .notFound
  | some item =>
    if item.ownerId != uid then .error .forbidden
    else
      match targetParentId with
      | some tid =>
        match findOwnedFolder db tid uid with
        | none => .error .notFound
        | some targetParent =>
          if walk_up db (db.files.length + 1) (some targetParent) item.id then
            .error .invalidOperation
          else .ok (setParent db itemId targetParentId)
      | none => .ok (setParent db itemId none)

/-- The direct children of a folder that are of type 'file': the rows
recursively_share_folder iterates over and shares. -/
def directFileChildren (db : DB) (folderId : Nat) : List FileRec :=
  (db.files.filter (fun f => f.parentId == some folderId)).filter
    (fun f => f.type == FType.file)

/-- The per-row effect of recursively_share_folder on the `files` table:
direct file children of the folder get is_shared=true, everything else
is untouched. -/
def markShared (folderId : Nat) (f : FileRec) : FileRec :=
  if f.parentId == some folderId && f.type == FType.file then
    { f with isShared := true }
  else f

/-- recursively_share_folder (main.py): enumerate the direct children of
the folder; for each child of type 'file' append a share row for the
grantee and set the child's is_shared flag; subfolders are skipped. -/
def recursively_share_folder (db : DB) (folderId sharedWithId : Nat)
    (perm : Perm) : DB :=
  { db with
    shares := (db.shares ++ (directFileChildren db folderId).map
      (fun c => { fileId := c.id, sharedWithId := sharedWithId, permission := perm }))
    files := (db.files.map (markShared folderId)) }

/-- Update the permission of the first share row matching the pair, as
the ORM assignment `existing_share.permission = ...` does. -/
def updateShare (fid uid : Nat) (p : Perm) : List ShareRec → List ShareRec
  | [] => []
  | s :: rest =>
    if s.fileId == fid && s.sharedWithId == uid then
      { s with permission := p } :: rest
    else s :: updateShare fid uid p rest

/-- share_file endpoint (main.py): look up the item (404), require
ownership (403), resolve the grantee by email (404).  When a share row
for the (item, grantee) pair already exists, update its permission in
place and return — no propagation happens on this path.  Otherwise
append a share row for the item itself and, when the item is a folder,
propagate to its direct file children via recursively_share_folder. -/
def share_file (db : DB) (fileId uid : Nat) (sharedWithEmail : String)
    (perm : Perm) : Except ApiErr DB :=
  match findFile db fileId with
  | none => .error .notFound
  | some item =>
    if item.ownerId != uid then .error .forbidden
    else
      match findUserByEmail db sharedWithEmail with
      | none => .error .notFound
      | some grantee =>
        match findShare db fileId grantee.id with
        | some _ =>
          .ok { db with shares := (updateShare fileId grantee.id perm db.shares) }
        | none =>
          let db1 : DB := { db with
            shares := (db.shares ++ [⟨fileId, grantee.id, perm⟩]) }
          if item.type == FType.folder then
            .ok (recursively_share_folder db1 fileId grantee.id perm)
          else .ok db1

/-- The store share_file produces on the fresh-share path: the item's
own share row appended and, for folders, the shallow propagation to
direct file children. -/
def share_result (db : DB) (iid gid : Nat) (p : Perm) (item : FileRec) : DB :=
  if item.type == FType.folder then
    recursively_share_folder
      { db with shares := (db.shares ++ [⟨iid, gid, p⟩]) } iid gid p
  else { db with shares := (db.shares ++ [⟨iid, gid, p⟩]) }

/-- The share rows the fresh-share path appends beyond the item's own
row: one per direct file child when the item is a folder, none
otherwise. -/
def shareChildren (db : DB) (iid gid : Nat) (p : Perm) (item : FileRec) :
    List ShareRec :=
  if item.type == FType.folder then
    (directFileChildren db iid).map (fun c => ⟨c.id, gid, p⟩)
  else []

/-- get_file endpoint (main.py): look up the item (404); a requester who
is not the owner is rejected 403 unless the row's global is_shared flag
is set — no FileShare row is consulted.  Folders are returned directly;
for files the blob must exist on disk (404 'File not found on server'). -/
def get_file (db : DB) (fileId uid : Nat) (disk : String → Bool) :
    Except ApiErr FileRec :=
  match findFile db fileId with
  | none => .error .notFound
  | some file =>
    if file.ownerId != uid && !file.isShared then .error .forbidden
    else if file.type == FType.folder then .ok file
    else
      match file.filePath with
      | none => .error .notFound
      | some p => if disk p then .ok file else .error .notFound

/-- get_folder_contents_endpoint (main.py): look up the folder (404); a
requester who is not the owner needs a direct FileShare row on the
folder itself (403 otherwise); then list the folder's direct children. -/
def get_folder_contents_endpoint (db : DB) (folderId uid : Nat) :
    Except ApiErr (List FileRec) :=
  match db.files.find? (fun f => f.id == folderId && f.type == FType.folder) with
  | none => .error .notFound
  | some folder =>
    if folder.ownerId != uid then
      match findShare db folderId uid with
      | none => .error .forbidden
      | some _ => .ok (db.files.filter (fun f => f.parentId == some folderId))
    else .ok (db.files.filter (fun f => f.parentId == some folderId))

/-- A version-history operation on a fixed file, for stating P3: a
content update through utils create_version, or a restore of an existing
version number through utils restore_version (which delegates to
create_version). -/
inductive VOp where
  | createV (comment : Option String)
  | restoreV (n : Nat)
deriving DecidableEq, Repr

/-- Run one version-history operation against the store. -/
def runVOp (db : DB) (fid uid : Nat) : VOp → Except ApiErr DB
  | .createV c =>
    match findFile db fid with
    | none => .error .notFound
    | some f => .ok (create_version db f uid c).2
  | .restoreV n =>
    match findVersion db fid n with
    | none => .error .notFound
    | some v =>
      match restore_version db v uid with
      | .error e => .error e
      | .ok vdb => .ok vdb.2

/-- Run a list of version-history operations, stopping on the first
error. -/
def runVOps (db : DB) (fid uid : Nat) : List VOp → Except ApiErr DB
  | [] => .ok db
  | op :: ops =>
    match runVOp db fid uid op with
    | .error e => .error e
    | .ok db' => runVOps db' fid uid ops

/-- Is the endpoint's outcome a 403? -/
def isForbiddenF (r : Except ApiErr FileRec) : Bool :=
  match r with
  | .error .forbidden => true
  | _ => false

/-- The disk-side availability check of get_file: folders skip it; files
need their blob path present on disk. -/
def fileAvailable (file : FileRec) (disk : String → Bool) : Bool :=
  if file.type == FType.folder then true else file.filePath.elim false disk

/-! Concrete states used to instantiate the theorems. -/

/-- A store with a single registered user and no items. -/
def dbUpl : DB := ⟨[⟨1, "a@b.c"⟩], [], [], []⟩

/-- The store after `upload_file dbUpl 1 "t.txt" 5 none`. -/
def dbUpl1 : DB :=
  ⟨[⟨1, "a@b.c"⟩],
   [⟨1, "t.txt", some "t.txt", some 5, 1, false, FType.file, none⟩],
   [⟨1, 1, "t.txt", 5, none, none, false⟩],
   []⟩

/-- A store holding one file with two versions, version 2 current. -/
def dbRst : DB :=
  ⟨[⟨1, "a@b.c"⟩],
   [⟨1, "t.txt", some "t.txt", some 5, 1, false, FType.file, none⟩],
   [⟨1, 1, "t.txt", 5, none, none, false⟩,
    ⟨1, 2, "v2_t.txt", 7, none, some 1, true⟩],
   []⟩

/-- The row the restore endpoint returns on `dbRst`: the pre-existing
version 1, re-flagged current. -/
def vRstOut : VersionRec := ⟨1, 1, "t.txt", 5, none, none, true⟩

/-- The store the restore endpoint produces on `dbRst`: the same two
rows with the is_current flags swapped. -/
def dbRstOut : DB :=
  ⟨[⟨1, "a@b.c"⟩],
   [⟨1, "t.txt", some "t.txt", some 5, 1, false, FType.file, none⟩],
   [⟨1, 1, "t.txt", 5, none, none, true⟩,
    ⟨1, 2, "v2_t.txt", 7, none, some 1, false⟩],
   []⟩

/-- A store where user 2 holds a write share on user 1's file. -/
def dbEdt : DB :=
  ⟨[⟨1, "a@b.c"⟩, ⟨2, "u2@x"⟩],
   [⟨1, "t.txt", some "t.txt", some 5, 1, false, FType.file, none⟩],
   [⟨1, 1, "t.txt", 5, none, none, false⟩],
   [⟨1, 2, Perm.write⟩]⟩

/-- A store where user 1's file is flagged is_shared but user 2 holds no
share row on it. -/
def fFlag : FileRec := ⟨1, "t.txt", some "t.txt", some 5, 1, true, FType.file, none⟩

/-- Store for exercising get_file's flag-based authorization. -/
def dbFlag : DB := ⟨[⟨1, "a@b.c"⟩, ⟨2, "u2@x"⟩], [fFlag], [], []⟩

/-- Folder A, the root of a two-folder chain. -/
def fMoveA : FileRec := ⟨1, "A", none, none, 1, false, FType.folder, none⟩

/-- Folder B, a direct child of A. -/
def fMoveB : FileRec := ⟨2, "B", none, none, 1, false, FType.folder, some 1⟩

/-- Store holding the chain A ⊃ B for the move-cycle check. -/
def dbMove : DB := ⟨[⟨1, "a@b.c"⟩], [fMoveA, fMoveB], [], []⟩

/-- A file whose version 1 is flagged current while version 2 holds the
highest number. -/
def fDel : FileRec := ⟨1, "t.txt", some "t.txt", some 5, 1, false, FType.file, none⟩

/-- Version 1 of `fDel`, is_current=true but not the highest number. -/
def vDel1 : VersionRec := ⟨1, 1, "t.txt", 5, none, none, true⟩

/-- Version 2 of `fDel`, the highest number but is_current=false. -/
def vDel2 : VersionRec := ⟨1, 2, "v2_t.txt", 7, none, some 1, false⟩

/-- Store for exercising delete_file_version. -/
def dbDel : DB := ⟨[⟨1, "a@b.c"⟩], [fDel], [vDel1, vDel2], []⟩

/-- Folder /docs owned by user 1. -/
def fShrFolder : FileRec := ⟨10, "docs", none, none, 1, false, FType.folder, none⟩

/-- File a.txt inside /docs. -/
def fShrChild : FileRec := ⟨11, "a.txt", some "a.txt", some 3, 1, false, FType.file, some 10⟩

/-- The grantee user. -/
def uShr2 : UserRec := ⟨2, "u2@x"⟩

/-- Store for exercising folder sharing: /docs with a.txt inside. -/
def dbShr : DB := ⟨[⟨1, "a@b.c"⟩, uShr2], [fShrFolder, fShrChild], [], []⟩

/-- a.txt after folder-share propagation marked is_shared. -/
def fShrChildShared : FileRec :=
  ⟨11, "a.txt", some "a.txt", some 3, 1, true, FType.file, some 10⟩

/-- The store share_file produces on `dbShr`: a share row for the folder
itself and one for its direct file child. -/
def dbShr1 : DB :=
  ⟨[⟨1, "a@b.c"⟩, uShr2], [fShrFolder, fShrChildShared], [],
   [⟨10, 2, Perm.read⟩, ⟨11, 2, Perm.read⟩]⟩

/-- The store after uploading t.txt into `dbUpl` and then running one
create_version and one restore_version: version numbers 1, 2, 3. -/
def dbVer2 : DB :=
  ⟨[⟨1, "a@b.c"⟩],
   [⟨1, "t.txt", some "t.txt", some 5, 1, false, FType.file, none⟩],
   [⟨1, 1, "t.txt", 5, none, none, false⟩,
    ⟨1, 2, "v2_t.txt", 5, none, some 1, false⟩,
    ⟨1, 3, "v3_t.txt", 5, some "Restored from version 1", some 1, true⟩],
   []⟩

end MyDrive

namespace MyDrive

/-! Generic list lemmas. -/

/-- A map that does not change the value of the search predicate
commutes with find?. -/
theorem find?_map_pred {α : Type} (g : α → α) (p : α → Bool)
    (hp : ∀ x, p (g x) = p x) (l : List α) :
    (l.map g).find? p = (l.find? p).map g := by
  induction l with
  | nil => rfl
  | cons a t ih =>
    simp only [List.map_cons, List.find?]
    rw [hp a]
    cases h : p a
    · simpa using ih
    · rfl

/-- find? over an append whose first part has no match. -/
theorem find?_append_none {α : Type} {p : α → Bool} {l₁ : List α}
    (l₂ : List α) (h : l₁.find? p = none) :
    (l₁ ++ l₂).find? p = l₂.find? p := by
  induction l₁ with
  | nil => rfl
  | cons a t ih =>
    simp only [List.find?, List.cons_append] at h ⊢
    cases hpa : p a
    · simp only [hpa] at h ⊢
      exact ih h
    · simp [hpa] at h

/-- Erasing the first match of `p` does not change the first match of a
predicate `q` disjoint from `p`. -/
theorem find?_eraseP_of {α : Type} {p q : α → Bool}
    (hpq : ∀ x, q x = true → p x = false) (l : List α) :
    (l.eraseP p).find? q = l.find? q := by
  induction l with
  | nil => rfl
  | cons a t ih =>
    rw [List.eraseP_cons]
    cases hpa : p a
    · simp only [cond_false, List.find?]
      cases hqa : q a
      · simpa [hqa] using ih
      · simp [hqa]
    · have hqa : q a = false := by
        cases hq : q a
        · rfl
        · have := hpq a hq
          rw [this] at hpa
          cases hpa
      simp [List.find?, hqa]

/-- The versions of a file all lose is_current under the bulk-clear map
of create_version: filtering for current rows of that file afterwards
yields nothing. -/
theorem filter_cleared_nil (l : List VersionRec) (fid : Nat) :
    (l.map (fun w => if w.fileId == fid then { w with isCurrent := false } else w)).filter
      (fun v => v.fileId == fid && v.isCurrent) = [] := by
  refine List.filter_eq_nil_iff.mpr ?_
  intro a ha
  rcases List.mem_map.1 ha with ⟨w, _, rfl⟩
  by_cases h : (w.fileId == fid) = true
  · simp [h]
  · simp [h]

/-! Claim C2 (invariant I3). -/

/-- C2, amended part: after utils create_version — hence after the
create-version endpoint and utils restore_version, both of which
delegate to it — exactly one Version row of the file has
is_current=true. -/
theorem exactly_one_current_after_create_version
    (db : DB) (file : FileRec) (uid : Nat) (c : Option String) :
    (((create_version db file uid c).2).versions.filter
      (fun v => v.fileId == file.id && v.isCurrent)).length = 1 := by
  simp only [create_version]
  rw [List.filter_append, filter_cleared_nil]
  simp

/-- C2, counterexample: the initial upload inserts version 1 without
passing is_current, so it takes the column default False — after the
upload the file has one version and zero current versions, refuting
invariant I3 for the initial-upload operation. -/
theorem upload_initial_version_not_current :
    upload_file dbUpl 1 ("t.txt") 5 none = Except.ok dbUpl1 ∧
    dbUpl1.versions.length = 1 ∧
    (dbUpl1.versions.filter (fun v => v.fileId == 1 && v.isCurrent)).length = 0 := by
  refine ⟨by decide, by decide, by decide⟩

/-! Claim C1 (restore is append-only). -/

/-- C1: evaluating the restore endpoint on a file with versions 1 and 2
(version 2 current).  The endpoint returns the pre-existing version 1
re-flagged is_current=true, the version table keeps exactly its two
rows, and no row carries the delegation comment — so restore neither
creates a new Version row nor leaves old is_current flags untouched,
contradicting the claim (and utils restore_version, which the endpoint
never calls, as well as tests/test_versions.py, which expects a new
version number after restore). -/
theorem restore_endpoint_mutates_existing_row :
    restore_file_version dbRst 1 1 1 = Except.ok (vRstOut, dbRstOut) ∧
    vRstOut.versionNumber = 1 ∧
    dbRstOut.versions.length = dbRst.versions.length ∧
    (dbRstOut.versions.filter
      (fun v => v.comment == some ("Restored from version 1"))).length = 0 := by
  refine ⟨by decide, rfl, rfl, by decide⟩

/-! Claim C4 (write share authorizes version operations). -/

/-- C4: the create-version and restore endpoints authorize non-owners by
looking for a share whose permission equals the string 'edit', but
PermissionType can only store "read", "write" and "admin" — so the
holder of a write share (user 2 on file 1 in `dbEdt`) is rejected 403 by
both endpoints, contradicting the claim that a write share suffices. -/
theorem write_share_rejected_by_edit_check :
    (∀ p : Perm, (Perm.val p == "edit") = false) ∧
    create_file_version dbEdt 1 2 none 7 (fun _ => true) =
      Except.error ApiErr.forbidden ∧
    restore_file_version dbEdt 1 1 2 = Except.error ApiErr.forbidden := by
  refine ⟨?_, by decide, by decide⟩
  intro p
  cases p <;> rfl

/-! Claim C10 (get_file authorizes by the global is_shared flag). -/

/-- C10: get_file never consults FileShare rows — for a requester who is
not the owner and holds no share row, the request is rejected 403
exactly when the row's is_shared flag is false; when the flag is true
the request is never rejected 403, and succeeds outright whenever the
disk-side availability check passes (folders always pass it). -/
theorem get_file_authorizes_by_global_flag (db : DB) (fid uid : Nat)
    (disk : String → Bool) (file : FileRec)
    (hfind : findFile db fid = some file)
    (hnotowner : (file.ownerId == uid) = false)
    (hnoshare : findShare db fid uid = none) :
    (file.isShared = false → get_file db fid uid disk = Except.error ApiErr.forbidden) ∧
    (file.isShared = true → isForbiddenF (get_file db fid uid disk) = false) ∧
    (file.isShared = true → fileAvailable file disk = true →
      get_file db fid uid disk = Except.ok file) := by
  have hbne : (file.ownerId != uid) = true := by simp [bne, hnotowner]
  refine ⟨?_, ?_, ?_⟩
  · intro hsh
    simp [get_file, hfind, hbne, hsh]
  · intro hsh
    simp only [get_file, hfind, hbne, hsh]
    by_cases hft : (file.type == FType.folder) = true
    · simp [hft, isForbiddenF]
    · cases hfp : file.filePath with
      | none => simp [hft, hfp, isForbiddenF]
      | some p =>
        cases hd : disk p
        · simp [hft, hfp, hd, isForbiddenF]
        · simp [hft, hfp, hd, isForbiddenF]
  · intro hsh havail
    by_cases hft : (file.type == FType.folder) = true
    · simp [get_file, hfind, hbne, hsh, hft]
    · cases hfp : file.filePath with
      | none => simp [fileAvailable, hft, hfp] at havail
      | some p =>
        have hd : disk p = true := by
          simpa [fileAvailable, hft, hfp] using havail
        simp [get_file, hfind, hbne, hsh, hft, hfp, hd]

/-- C10 witness: in `dbFlag`, user 2 owns nothing and holds no share
row, yet reads user 1's file because its is_shared flag is set. -/
theorem get_file_authorizes_by_global_flag_witness :
    get_file dbFlag 1 2 (fun _ => true) = Except.ok fFlag ∧
    fFlag.ownerId = 1 ∧ fFlag.isShared = true ∧ findShare dbFlag 1 2 = none :=
  ⟨(get_file_authorizes_by_global_flag dbFlag 1 2 (fun _ => true) fFlag
      (by decide) (by decide) (by decide)).2.2 rfl (by decide),
   rfl, rfl, by decide⟩

/-! Claim C3 (move into a descendant is rejected). -/

/-- Monotonicity of the upward walk in its fuel. -/
theorem walk_up_mono (db : DB) :
    ∀ (k k' : Nat) (cur : Option FileRec) (target : Nat), k ≤ k' →
      walk_up db k cur target = true → walk_up db k' cur target = true := by
  intro k
  induction k with
  | zero =>
    intro k' cur target _ h
    simp [walk_up] at h
  | succ k ih =>
    intro k' cur target hle h
    cases cur with
    | none => simp [walk_up] at h
    | some c =>
      cases k' with
      | zero => exact absurd hle (by omega)
      | succ k'' =>
        by_cases hc : (c.id == target) = true
        · simp [walk_up, hc]
        · simp only [walk_up, hc, if_false, Bool.false_eq_true] at h ⊢
          exact ih k'' (nextParent db c) target (by omega) h

/-- C3: when the target parent B lies strictly below the moved folder A
(the upward walk from B reaches A within the fuel move_item uses),
move_item fails 400 InvalidOperation; the error is raised before the
parent_id assignment, so the store — A's parent_id included — is the
caller's unchanged `db`. -/
theorem move_into_descendant_rejected (db : DB) (uid itemId tid k : Nat)
    (item target : FileRec)
    (hitem : findFile db itemId = some item)
    (howner : item.ownerId = uid)
    (htarget : findOwnedFolder db tid uid = some target)
    (hdesc : walk_up db k (some target) itemId = true)
    (hk : k ≤ db.files.length + 1) :
    move_item db uid itemId (some tid) = Except.error ApiErr.invalidOperation := by
  have hid : item.id = itemId := by
    have h := List.find?_some
      (show db.files.find? (fun f => f.id == itemId) = some item by
        simpa [findFile] using hitem)
    simpa using h
  have hw : walk_up db (db.files.length + 1) (some target) item.id = true := by
    rw [hid]
    exact walk_up_mono db k (db.files.length + 1) (some target) itemId hk hdesc
  simp [move_item, hitem, howner, htarget, hw]

/-- C3 witness: moving folder A (id 1) into its child B (id 2) in
`dbMove` is rejected with 400. -/
theorem move_into_descendant_rejected_witness :
    move_item dbMove 1 1 (some 2) = Except.error ApiErr.invalidOperation :=
  move_into_descendant_rejected dbMove 1 1 2 2 fMoveA fMoveB
    (by decide) (by decide) (by decide) (by decide) (by decide)

/-! Sharing machinery lemmas. -/

/-- markShared never changes a row's primary key. -/
theorem markShared_id (folderId : Nat) (f : FileRec) :
    (markShared folderId f).id = f.id := by
  unfold markShared
  split <;> rfl

/-- markShared never changes a row's type. -/
theorem markShared_type (folderId : Nat) (f : FileRec) :
    (markShared folderId f).type = f.type := by
  unfold markShared
  split <;> rfl

/-- markShared leaves folder rows untouched. -/
theorem markShared_folder_fixed (folderId : Nat) (f : FileRec)
    (h : (f.type == FType.file) = false) : markShared folderId f = f := by
  simp [markShared, h]

/-- Users are untouched by the fresh-share path. -/
theorem share_result_users (db : DB) (iid gid : Nat) (p : Perm) (item : FileRec) :
    (share_result db iid gid p item).users = db.users := by
  unfold share_result recursively_share_folder
  split <;> rfl

/-- Versions are untouched by the fresh-share path. -/
theorem share_result_versions (db : DB) (iid gid : Nat) (p : Perm) (item : FileRec) :
    (share_result db iid gid p item).versions = db.versions := by
  unfold share_result recursively_share_folder
  split <;> rfl

/-- Files after the fresh-share path: marked for a folder, untouched
otherwise. -/
theorem share_result_files (db : DB) (iid gid : Nat) (p : Perm) (item : FileRec) :
    (share_result db iid gid p item).files =
      (if item.type == FType.folder then db.files.map (markShared iid) else db.files) := by
  unfold share_result recursively_share_folder
  split <;> rfl

/-- Shares after the fresh-share path: the item's own row followed by the
propagated child rows. -/
theorem share_result_shares (db : DB) (iid gid : Nat) (p : Perm) (item : FileRec) :
    (share_result db iid gid p item).shares =
      db.shares ++ ⟨iid, gid, p⟩ :: shareChildren db iid gid p item := by
  unfold share_result recursively_share_folder shareChildren
  split
  · simp [directFileChildren]
  · simp

/-- share_file on an owned item, a resolvable grantee and no pre-existing
share row for the pair takes the fresh-share path. -/
theorem share_file_fresh (db : DB) (iid uid : Nat) (email : String) (p : Perm)
    (item : FileRec) (g : UserRec)
    (hitem : findFile db iid = some item)
    (howner : item.ownerId = uid)
    (hg : findUserByEmail db email = some g)
    (hns : findShare db iid g.id = none) :
    share_file db iid uid email p = Except.ok (share_result db iid g.id p item) := by
  have hbne : (item.ownerId != uid) = false := by simp [bne, howner]
  simp only [share_file, hitem, hbne, hg, hns, share_result]
  cases hft : (item.type == FType.folder)
  · simp [hft]
  · simp [hft]

/-- Spelling out share_result for a folder item. -/
theorem share_result_eq_of_folder (db : DB) (iid gid : Nat) (p : Perm)
    (item : FileRec) (htype : item.type = FType.folder) :
    share_result db iid gid p item = { db with
      files := (db.files.map (markShared iid))
      shares := (db.shares ++ ⟨iid, gid, p⟩ ::
        (directFileChildren db iid).map (fun c => ⟨c.id, gid, p⟩)) } := by
  have hft : (item.type == FType.folder) = true := by simp [beq_iff_eq, htype]
  cases db with
  | mk us fs vs ss =>
    simp [share_result, recursively_share_folder, hft, directFileChildren]

/-! Claim C6 (folder shares propagate shallowly, as a one-time snapshot). -/

/-- C6: sharing a folder appends exactly one share row for the folder
itself and one per direct child of type 'file' (each such child marked
is_shared=true by markShared), and nothing else — in particular no row
for subfolders or for files inside subfolders, whose parent is not the
shared folder.  Files entering the folder later gain no rows: neither
upload_file nor move_item ever touches the shares table. -/
theorem folder_share_is_shallow_snapshot (db : DB) (iid uid : Nat)
    (email : String) (p : Perm) (item : FileRec) (g : UserRec)
    (hitem : findFile db iid = some item)
    (howner : item.ownerId = uid)
    (htype : item.type = FType.folder)
    (hg : findUserByEmail db email = some g)
    (hns : findShare db iid g.id = none) :
    share_file db iid uid email p = Except.ok { db with
      files := (db.files.map (markShared iid))
      shares := (db.shares ++ ⟨iid, g.id, p⟩ ::
        (directFileChildren db iid).map (fun c => ⟨c.id, g.id, p⟩)) } ∧
    (∀ (db2 : DB) (uid2 : Nat) (fn : String) (sz : Nat) (pid : Option Nat) (db2' : DB),
      upload_file db2 uid2 fn sz pid = Except.ok db2' → db2'.shares = db2.shares) ∧
    (∀ (db3 : DB) (u3 i3 : Nat) (t3 : Option Nat) (db3' : DB),
      move_item db3 u3 i3 t3 = Except.ok db3' → db3'.shares = db3.shares) := by
  refine ⟨?_, ?_, ?_⟩
  · rw [share_file_fresh db iid uid email p item g hitem howner hg hns,
      share_result_eq_of_folder db iid g.id p item htype]
  · intro db2 uid2 fn sz pid db2' h
    cases pid with
    | none =>
      simp only [upload_file, Except.ok.injEq] at h
      subst h
      rfl
    | some pid2 =>
      cases hfo : findOwnedFolder db2 pid2 uid2 with
      | none => simp [upload_file, hfo] at h
      | some tp =>
        simp only [upload_file, hfo, Except.ok.injEq] at h
        subst h
        rfl
  · intro db3 u3 i3 t3 db3' h
    unfold move_item at h
    split at h
    · exact absurd h (by simp)
    · split at h
      · exact absurd h (by simp)
      · split at h
        · split at h
          · exact absurd h (by simp)
          · split at h
            · exact absurd h (by simp)
            · injection h with h2
              rw [← h2]
              rfl
        · injection h with h2
          rw [← h2]
          rfl

/-! Claim C5 (the highest version number is protected). -/

/-- C5: delete_file_version rejects with 400 exactly the version whose
version_number equals the file's maximum — the comparison never reads
is_current — and on any lower version number it erases exactly that row,
leaving the lookup of the maximum version untouched. -/
theorem delete_version_protects_highest (db : DB) (fid n uid m : Nat)
    (file : FileRec) (v : VersionRec)
    (hfile : findFile db fid = some file)
    (howner : file.ownerId = uid)
    (hver : findVersion db fid n = some v)
    (hmax : latest_version_number db fid = some m) :
    (n = m → delete_file_version db fid n uid = Except.error ApiErr.invalidOperation) ∧
    (¬ n = m →
      delete_file_version db fid n uid = Except.ok { db with
        versions := (db.versions.eraseP (fun w => w.fileId == fid && w.versionNumber == n)) } ∧
      findVersion { db with
        versions := (db.versions.eraseP (fun w => w.fileId == fid && w.versionNumber == n)) } fid m
        = findVersion db fid m) := by
  have hfid : file.id = fid := by
    have h := List.find?_some
      (show db.files.find? (fun f => f.id == fid) = some file by
        simpa [findFile] using hfile)
    simpa using h
  have hv := List.find?_some
    (show db.versions.find? (fun w => w.fileId == fid && w.versionNumber == n) = some v by
      simpa [findVersion] using hver)
  rw [Bool.and_eq_true, beq_iff_eq, beq_iff_eq] at hv
  constructor
  · intro hnm
    have hvm : (v.versionNumber == m) = true := by
      rw [beq_iff_eq, hv.2, hnm]
    simp [delete_file_version, hfile, howner, hver, hmax, hvm]
  · intro hnm
    have hvm : (v.versionNumber == m) = false := by
      rw [hv.2]
      exact beq_eq_false_iff_ne.mpr hnm
    refine ⟨?_, ?_⟩
    · simp [delete_file_version, hfile, howner, hver, hmax, hvm,
        delete_version, hfid]
    · show (db.versions.eraseP _).find? _ = db.versions.find? _
      refine find?_eraseP_of ?_ db.versions
      intro x hx
      rw [Bool.and_eq_true, beq_iff_eq, beq_iff_eq] at hx
      have : (x.versionNumber == n) = false :=
        beq_eq_false_iff_ne.mpr (by omega)
      simp [this]

/-- C5 witness: in `dbDel`, deleting version 2 (highest number, not
current-flagged) is rejected 400, while deleting version 1 (lower
number, despite is_current=true) succeeds and erases only that row. -/
theorem delete_version_protects_highest_witness :
    delete_file_version dbDel 1 2 1 = Except.error ApiErr.invalidOperation ∧
    delete_file_version dbDel 1 1 1 =
      Except.ok { dbDel with
        versions := (dbDel.versions.eraseP (fun w => w.fileId == 1 && w.versionNumber == 1)) } :=
  ⟨(delete_version_protects_highest dbDel 1 2 1 2 fDel vDel2
      (by decide) rfl (by decide) (by decide)).1 rfl,
   ((delete_version_protects_highest dbDel 1 1 1 2 fDel vDel1
      (by decide) rfl (by decide) (by decide)).2 (by decide)).1⟩

/-- C6 witness: sharing /docs in `dbShr` yields exactly the folder's own
row plus a row for its direct file child, with the child marked shared. -/
theorem folder_share_is_shallow_snapshot_witness :
    share_file dbShr 10 1 ("u2@x") Perm.read = Except.ok dbShr1 := by
  have h := (folder_share_is_shallow_snapshot dbShr 10 1 ("u2@x") Perm.read
    fShrFolder uShr2 (by decide) (by decide) (by decide) (by decide) (by decide)).1
  rw [h]
  decide

/-- First match of a stronger predicate: if the first `p`-match also
satisfies `q` and `q` entails `p`, it is the first `q`-match. -/
theorem find?_stronger {α : Type} {p q : α → Bool} {l : List α} {a : α}
    (h : l.find? p = some a) (hq : ∀ x, q x = true → p x = true)
    (ha : q a = true) : l.find? q = some a := by
  induction l with
  | nil => cases h
  | cons b t ih =>
    simp only [List.find?] at h ⊢
    cases hpb : p b
    · simp only [hpb] at h
      have hqb : q b = false := by
        cases hqb' : q b
        · rfl
        · exact absurd (hq b hqb') (by simp [hpb])
      simp only [hqb]
      exact ih h
    · simp only [hpb] at h
      injection h with hba
      subst hba
      simp only [ha]

/-! Claim C9 (a folder share grants access to the folder itself). -/

/-- C9 counterexample: sharing /docs with user 2 creates a direct Share
row on the folder itself, and user 2's folder-content read is authorized
through it — the claim that no Share row exists on the folder and that
the grantee's resolved access to it is None is false. -/
theorem folder_gets_direct_share_row :
    share_file dbShr 10 1 ("u2@x") Perm.read = Except.ok dbShr1 ∧
    findShare dbShr1 10 2 = some ⟨10, 2, Perm.read⟩ ∧
    get_folder_contents_endpoint dbShr1 10 2 = Except.ok [fShrChildShared] := by
  refine ⟨by decide, by decide, by decide⟩

/-- C9, amended: sharing a folder with a grantee who is not its owner
creates a direct Share row on the folder itself (besides the rows for
its direct file children), so the grantee's resolved access to the
folder is the granted permission — the folder-content endpoint
authorizes the grantee through that row. -/
theorem folder_share_grants_folder_access (db : DB) (iid uid : Nat)
    (email : String) (p : Perm) (item : FileRec) (g : UserRec)
    (hitem : findFile db iid = some item)
    (howner : item.ownerId = uid)
    (htype : item.type = FType.folder)
    (hg : findUserByEmail db email = some g)
    (hns : findShare db iid g.id = none)
    (hgne : (g.id == uid) = false) :
    ∃ db', share_file db iid uid email p = Except.ok db' ∧
      findShare db' iid g.id = some ⟨iid, g.id, p⟩ ∧
      ∃ items, get_folder_contents_endpoint db' iid g.id = Except.ok items := by
  have hftr : (item.type == FType.folder) = true := by simp [beq_iff_eq, htype]
  have hshare : findShare (share_result db iid g.id p item) iid g.id
      = some ⟨iid, g.id, p⟩ := by
    unfold findShare
    rw [share_result_shares]
    rw [find?_append_none _ (by simpa [findShare] using hns)]
    simp [List.find?]
  refine ⟨share_result db iid g.id p item,
    share_file_fresh db iid uid email p item g hitem howner hg hns, hshare, ?_⟩
  have hfind1 : db.files.find? (fun f => f.id == iid) = some item := by
    simpa [findFile] using hitem
  have hid0 := List.find?_some hfind1
  have hfind2 : db.files.find? (fun f => f.id == iid && f.type == FType.folder)
      = some item := by
    refine find?_stronger hfind1 ?_ ?_
    · intro x hx
      rw [Bool.and_eq_true] at hx
      exact hx.1
    · rw [Bool.and_eq_true]
      exact ⟨hid0, hftr⟩
  have hnotfile : (item.type == FType.file) = false := by
    rw [beq_eq_false_iff_ne, htype]
    intro e
    cases e
  have howner2 : (item.ownerId != g.id) = true := by
    have hne : (item.ownerId == g.id) = false := by
      rw [beq_eq_false_iff_ne, howner]
      intro e
      rw [beq_eq_false_iff_ne] at hgne
      exact hgne e.symm
    simp [bne, hne]
  have hfiles : (share_result db iid g.id p item).files
      = db.files.map (markShared iid) := by
    rw [share_result_files]
    exact if_pos hftr
  have hpred : ∀ x : FileRec,
      ((markShared iid x).id == iid && (markShared iid x).type == FType.folder)
        = (x.id == iid && x.type == FType.folder) := by
    intro x
    rw [markShared_id, markShared_type]
  unfold get_folder_contents_endpoint
  rw [hfiles, find?_map_pred (markShared iid) _ hpred db.files, hfind2]
  simp only [Option.map_some']
  rw [markShared_folder_fixed iid item hnotfile]
  simp only [howner2, if_true, hshare]
  exact ⟨_, rfl⟩

/-- C9 witness: the amended behaviour on the concrete store `dbShr`. -/
theorem folder_share_grants_folder_access_witness :
    ∃ db', share_file dbShr 10 1 ("u2@x") Perm.read = Except.ok db' ∧
      findShare db' 10 2 = some ⟨10, 2, Perm.read⟩ ∧
      ∃ items, get_folder_contents_endpoint db' 10 2 = Except.ok items :=
  folder_share_grants_folder_access dbShr 10 1 ("u2@x") Perm.read fShrFolder uShr2
    (by decide) (by decide) (by decide) (by decide) (by decide) (by decide)

/-! Claim C7 (re-sharing updates the single share row in place). -/

/-- updateShare passes over a prefix with no matching row. -/
theorem updateShare_append_nomatch (fid uid : Nat) (p : Perm)
    (l₁ l₂ : List ShareRec)
    (h : ∀ s ∈ l₁, (s.fileId == fid && s.sharedWithId == uid) = false) :
    updateShare fid uid p (l₁ ++ l₂) = l₁ ++ updateShare fid uid p l₂ := by
  induction l₁ with
  | nil => rfl
  | cons a t ih =>
    have ha := h a (List.mem_cons_self a t)
    simp only [List.cons_append, updateShare, ha, Bool.false_eq_true, if_false]
    exact congrArg (List.cons a) (ih (fun s hs => h s (List.mem_cons_of_mem a hs)))

/-- updateShare rewrites the head when it matches the pair. -/
theorem updateShare_cons_match (fid uid : Nat) (p : Perm) (s : ShareRec)
    (rest : List ShareRec)
    (h : (s.fileId == fid && s.sharedWithId == uid) = true) :
    updateShare fid uid p (s :: rest) = { s with permission := p } :: rest := by
  simp only [updateShare, h, if_true]

/-- C7: two share_file calls for the same (item, grantee) pair — the
first on a store with no row for the pair — leave exactly one share row
for the pair, carrying the second call's permission: the second call
finds the existing row and updates it in place.  The hypothesis on
children ids (no row is its own parent) rules out a degenerate cyclic
store in which a propagated child row would alias the pair. -/
theorem reshare_updates_single_row (db : DB) (iid uid : Nat) (email : String)
    (p1 p2 : Perm) (item : FileRec) (g : UserRec)
    (hitem : findFile db iid = some item)
    (howner : item.ownerId = uid)
    (hg : findUserByEmail db email = some g)
    (hfilter : db.shares.filter (fun s => s.fileId == iid && s.sharedWithId == g.id) = [])
    (hchild : ∀ f ∈ db.files, f.parentId = some iid → (f.id == iid) = false)
    (hdiff : (p1 == p2) = false) :
    ∃ db1 db2, share_file db iid uid email p1 = Except.ok db1 ∧
      share_file db1 iid uid email p2 = Except.ok db2 ∧
      db2.shares.filter (fun s => s.fileId == iid && s.sharedWithId == g.id)
        = [⟨iid, g.id, p2⟩] := by
  have hnomem : ∀ s ∈ db.shares,
      (s.fileId == iid && s.sharedWithId == g.id) = false := by
    intro s hs
    have hni := List.filter_eq_nil_iff.mp hfilter s hs
    cases hb : (s.fileId == iid && s.sharedWithId == g.id)
    · rfl
    · exact absurd hb hni
  have hns : findShare db iid g.id = none := by
    unfold findShare
    rw [List.find?_eq_none]
    intro x hx
    rw [hnomem x hx]
    simp
  have h1 := share_file_fresh db iid uid email p1 item g hitem howner hg hns
  have hchildrows : ∀ s ∈ shareChildren db iid g.id p1 item,
      (s.fileId == iid && s.sharedWithId == g.id) = false := by
    intro s hs
    unfold shareChildren at hs
    by_cases hft : (item.type == FType.folder) = true
    · rw [if_pos hft] at hs
      rcases List.mem_map.1 hs with ⟨c, hc, rfl⟩
      have hc1 := List.mem_filter.1 hc
      have hc2 := List.mem_filter.1 hc1.1
      have hpe : c.parentId = some iid := by
        have hb := hc2.2
        rwa [beq_iff_eq] at hb
      have hcid := hchild c hc2.1 hpe
      simp [hcid]
    · rw [if_neg hft] at hs
      cases hs
  have hitem1 : findFile (share_result db iid g.id p1 item) iid = some item := by
    unfold findFile
    rw [share_result_files]
    by_cases hft : (item.type == FType.folder) = true
    · rw [if_pos hft]
      rw [find?_map_pred (markShared iid) _ (fun x => by rw [markShared_id]) db.files]
      rw [show db.files.find? (fun f => f.id == iid) = some item from by
        simpa [findFile] using hitem]
      have hnf : (item.type == FType.file) = false := by
        rw [beq_iff_eq] at hft
        rw [beq_eq_false_iff_ne, hft]
        intro e
        cases e
      simp only [Option.map_some']
      rw [markShared_folder_fixed iid item hnf]
    · rw [if_neg hft]
      simpa [findFile] using hitem
  have hg1 : findUserByEmail (share_result db iid g.id p1 item) email = some g := by
    unfold findUserByEmail
    rw [share_result_users]
    simpa [findUserByEmail] using hg
  have hfs1 : findShare (share_result db iid g.id p1 item) iid g.id
      = some ⟨iid, g.id, p1⟩ := by
    unfold findShare
    rw [share_result_shares]
    rw [find?_append_none _ (by simpa [findShare] using hns)]
    simp [List.find?]
  have hbne : (item.ownerId != uid) = false := by simp [bne, howner]
  refine ⟨share_result db iid g.id p1 item,
    { share_result db iid g.id p1 item with
      shares := (updateShare iid g.id p2 (share_result db iid g.id p1 item).shares) },
    h1, ?_, ?_⟩
  · simp only [share_file, hitem1, hbne, hg1, hfs1, Bool.false_eq_true, if_false]
  · show (updateShare iid g.id p2 (share_result db iid g.id p1 item).shares).filter _ = _
    rw [share_result_shares]
    rw [updateShare_append_nomatch iid g.id p2 db.shares _ hnomem]
    rw [updateShare_cons_match iid g.id p2 ⟨iid, g.id, p1⟩ _ (by simp)]
    rw [List.filter_append, hfilter]
    have hcf : (shareChildren db iid g.id p1 item).filter
        (fun s => s.fileId == iid && s.sharedWithId == g.id) = [] :=
      List.filter_eq_nil_iff.mpr (fun a ha => by rw [hchildrows a ha]; simp)
    simp [List.filter_cons, hcf]

/-- C7 witness: sharing /docs twice with user 2, first read then write,
leaves a single row for the (folder, grantee) pair carrying write. -/
theorem reshare_updates_single_row_witness :
    ∃ db1 db2, share_file dbShr 10 1 ("u2@x") Perm.read = Except.ok db1 ∧
      share_file db1 10 1 ("u2@x") Perm.write = Except.ok db2 ∧
      db2.shares.filter (fun s => s.fileId == 10 && s.sharedWithId == 2)
        = [⟨10, 2, Perm.write⟩] :=
  reshare_updates_single_row dbShr 10 1 ("u2@x") Perm.read Perm.write fShrFolder uShr2
    (by decide) (by decide) (by decide) (by decide) (by decide) (by decide)

/-! Claim C8 (P3: version numbers are exactly 1..N). -/

/-- Every member is bounded by the list maximum. -/
theorem le_natMaxList {l : List Nat} {x : Nat} (h : x ∈ l) :
    x ≤ natMaxList l := by
  induction l with
  | nil => cases h
  | cons a t ih =>
    rcases List.mem_cons.1 h with rfl | h'
    · show x ≤ max x (natMaxList t)
      exact Nat.le_max_left _ _
    · show x ≤ max a (natMaxList t)
      exact Nat.le_trans (ih h') (Nat.le_max_right _ _)

/-- The list maximum is bounded by any common bound. -/
theorem natMaxList_le {l : List Nat} {b : Nat} (h : ∀ x ∈ l, x ≤ b) :
    natMaxList l ≤ b := by
  induction l with
  | nil => exact Nat.zero_le b
  | cons a t ih =>
    show max a (natMaxList t) ≤ b
    exact Nat.max_le.mpr ⟨h a (List.mem_cons_self a t),
      ih (fun x hx => h x (List.mem_cons_of_mem a hx))⟩

/-- Appending the next element on the right extends a range'. -/
theorem range'_snoc (s n : Nat) :
    List.range' s n ++ [s + n] = List.range' s (n + 1) := by
  induction n generalizing s with
  | zero => simp [List.range']
  | succ m ih =>
    rw [List.range'_succ, List.range'_succ, List.cons_append]
    congr 1
    rw [show s + (m + 1) = (s + 1) + m from by omega]
    exact ih (s + 1)

/-- range' starting at 1, extended by its successor. -/
theorem range'_one_snoc (n : Nat) :
    List.range' 1 n ++ [n + 1] = List.range' 1 (n + 1) := by
  have h := range'_snoc 1 n
  rwa [show 1 + n = n + 1 from by omega] at h

/-- The bulk is_current-clearing map of create_version changes neither
membership of a file's version list nor its version numbers. -/
theorem vnums_map_clear (l : List VersionRec) (fid fid2 : Nat) :
    ((l.map (fun w => if w.fileId == fid2 then { w with isCurrent := false } else w)).filter
      (fun v => v.fileId == fid)).map (fun v => v.versionNumber)
    = ((l.filter (fun v => v.fileId == fid)).map (fun v => v.versionNumber)) := by
  induction l with
  | nil => rfl
  | cons w t ih =>
    simp only [List.map_cons]
    by_cases h2 : (w.fileId == fid2) = true
    · rw [if_pos h2]
      simp only [List.filter_cons,
        show ({ w with isCurrent := false } : VersionRec).fileId = w.fileId from rfl]
      by_cases h : (w.fileId == fid) = true
      · rw [if_pos h, if_pos h]
        simp only [List.map_cons]
        exact congrArg (List.cons w.versionNumber) ih
      · rw [if_neg h, if_neg h]
        exact ih
    · rw [if_neg h2]
      simp only [List.filter_cons]
      by_cases h : (w.fileId == fid) = true
      · rw [if_pos h, if_pos h]
        simp only [List.map_cons]
        exact congrArg (List.cons w.versionNumber) ih
      · rw [if_neg h, if_neg h]
        exact ih

/-- create_version extends a contiguous 1..n version-number list to
1..n+1: the next number is the stored maximum plus one, or 1 when the
file has no versions. -/
theorem vnums_create_version (db : DB) (file : FileRec) (uid : Nat)
    (c : Option String) (n : Nat)
    (hv : vnums db file.id = List.range' 1 n) :
    vnums (create_version db file uid c).2 file.id = List.range' 1 (n + 1) := by
  cases n with
  | zero =>
    have hfv : file_versions db file.id = [] :=
      List.map_eq_nil_iff.mp (show (file_versions db file.id).map
        (fun v => v.versionNumber) = [] from hv)
    have hl : latest_version_number db file.id = none := by
      unfold latest_version_number
      rw [hfv]
    unfold vnums file_versions
    simp only [create_version, hl]
    rw [List.filter_append, List.map_append, vnums_map_clear]
    have hv' : (db.versions.filter (fun v => v.fileId == file.id)).map
        (fun v => v.versionNumber) = [] := hv
    rw [hv']
    simp [List.range']
  | succ m =>
    have hmem : (m + 1) ∈ vnums db file.id := by
      rw [hv, List.mem_range'_1]
      omega
    have hbound : ∀ x ∈ vnums db file.id, x ≤ m + 1 := by
      intro x hx
      rw [hv, List.mem_range'_1] at hx
      omega
    have hl : latest_version_number db file.id = some (m + 1) := by
      unfold latest_version_number
      cases hfv : file_versions db file.id with
      | nil =>
        exfalso
        have hv0 : vnums db file.id = [] := by
          unfold vnums
          rw [hfv]
          rfl
        rw [hv0] at hv
        exact absurd hv.symm (by simp [List.range'_succ])
      | cons a t =>
        have hmem' : (m + 1) ∈ (a :: t).map (fun v => v.versionNumber) := by
          have : vnums db file.id = (a :: t).map (fun v => v.versionNumber) := by
            unfold vnums
            rw [hfv]
          rwa [this] at hmem
        have hbound' : ∀ x ∈ (a :: t).map (fun v => v.versionNumber), x ≤ m + 1 := by
          intro x hx
          refine hbound x ?_
          have : vnums db file.id = (a :: t).map (fun v => v.versionNumber) := by
            unfold vnums
            rw [hfv]
          rwa [this]
        have hmax : natMaxList ((a :: t).map (fun v => v.versionNumber)) = m + 1 :=
          Nat.le_antisymm (natMaxList_le hbound') (le_natMaxList hmem')
        exact congrArg some hmax
    unfold vnums file_versions
    simp only [create_version, hl]
    rw [List.filter_append, List.map_append, vnums_map_clear]
    have hv' : (db.versions.filter (fun v => v.fileId == file.id)).map
        (fun v => v.versionNumber) = List.range' 1 (m + 1) := hv
    rw [hv', ← range'_one_snoc (m + 1)]
    congr 1
    simp

/-- One successful version-history operation on a file whose version
numbers are exactly 1..n leaves them exactly 1..n+1. -/
theorem runVOp_ok (db db' : DB) (fid uid : Nat) (op : VOp) (n : Nat)
    (hv : vnums db fid = List.range' 1 n)
    (h : runVOp db fid uid op = Except.ok db') :
    vnums db' fid = List.range' 1 (n + 1) := by
  cases op with
  | createV c =>
    simp only [runVOp] at h
    cases hf : findFile db fid with
    | none => simp only [hf] at h; exact absurd h (by simp)
    | some f =>
      simp only [hf, Except.ok.injEq] at h
      subst h
      have hfid : f.id = fid := by
        simpa using List.find?_some (show db.files.find? (fun x => x.id == fid) = some f
          from by simpa [findFile] using hf)
      rw [← hfid] at hv ⊢
      exact vnums_create_version db f uid c n hv
  | restoreV k =>
    simp only [runVOp] at h
    cases hfv : findVersion db fid k with
    | none => simp only [hfv] at h; exact absurd h (by simp)
    | some v =>
      simp only [hfv] at h
      have hvfid : v.fileId = fid := by
        have hp := List.find?_some (show db.versions.find?
            (fun w => w.fileId == fid && w.versionNumber == k) = some v
          from by simpa [findVersion] using hfv)
        rw [Bool.and_eq_true, beq_iff_eq, beq_iff_eq] at hp
        exact hp.1
      unfold restore_version at h
      cases hff : findFile db v.fileId with
      | none => simp only [hff] at h; exact absurd h (by simp)
      | some file =>
        simp only [hff, Except.ok.injEq] at h
        subst h
        have hfid : file.id = v.fileId := by
          simpa using List.find?_some (show db.files.find?
              (fun x => x.id == v.fileId) = some file
            from by simpa [findFile] using hff)
        have hfid' : ({ file with fileSize := some v.fileSize } : FileRec).id = fid := by
          show file.id = fid
          rw [hfid, hvfid]
        rw [← hfid'] at hv ⊢
        exact vnums_create_version db { file with fileSize := some v.fileSize } uid _ n hv

/-- Running N successful version-history operations on a file whose
version numbers are exactly 1..n leaves them exactly 1..n+N. -/
theorem runVOps_ok (ops : List VOp) : ∀ (db db' : DB) (fid uid n : Nat),
    vnums db fid = List.range' 1 n →
    runVOps db fid uid ops = Except.ok db' →
    vnums db' fid = List.range' 1 (n + ops.length) := by
  induction ops with
  | nil =>
    intro db db' fid uid n hv h
    simp only [runVOps, Except.ok.injEq] at h
    subst h
    simpa using hv
  | cons op ops ih =>
    intro db db' fid uid n hv h
    simp only [runVOps] at h
    cases ho : runVOp db fid uid op with
    | error e => simp only [ho] at h; exact absurd h (by simp)
    | ok db1 =>
      simp only [ho] at h
      have h1 := runVOp_ok db db1 fid uid op n hv ho
      have h2 := ih db1 db' fid uid (n + 1) h1 h
      rw [show n + 1 + ops.length = n + (ops.length + 1) from by omega] at h2
      simpa using h2

/-- The initial upload inserts the fresh file's version 1. -/
theorem upload_vnums (db : DB) (uid : Nat) (fn : String) (sz : Nat)
    (pid : Option Nat) (db' : DB)
    (hfresh : vnums db (freshFileId db) = [])
    (h : upload_file db uid fn sz pid = Except.ok db') :
    vnums db' (freshFileId db) = List.range' 1 1 := by
  have key : ∀ q : Option Nat, db' = insertUploaded db uid fn sz q →
      vnums db' (freshFileId db) = List.range' 1 1 := by
    intro q hq
    subst hq
    unfold vnums file_versions insertUploaded
    simp only
    rw [List.filter_append, List.map_append]
    have hv' : (db.versions.filter (fun v => v.fileId == freshFileId db)).map
        (fun v => v.versionNumber) = [] := hfresh
    rw [hv']
    simp [List.range'_succ, List.range']
  cases pid with
  | none =>
    simp only [upload_file, Except.ok.injEq] at h
    exact key none h.symm
  | some pid2 =>
    cases hfo : findOwnedFolder db pid2 uid with
    | none => simp [upload_file, hfo] at h
    | some tp =>
      simp only [upload_file, hfo, Except.ok.injEq] at h
      exact key (some pid2) h.symm

/-- C8: after the initial upload of a fresh file and any N successful
utils create_version / restore_version operations on it, the file's
version numbers are exactly 1..N+1, with no gaps or repeats: every
create_version assigns max existing number + 1 (1 when none exist) and
restore_version delegates to create_version. -/
theorem version_numbers_are_contiguous (db db1 db2 : DB) (uid : Nat)
    (fn : String) (sz : Nat) (pid : Option Nat) (ops : List VOp)
    (hfresh : vnums db (freshFileId db) = [])
    (hup : upload_file db uid fn sz pid = Except.ok db1)
    (hrun : runVOps db1 (freshFileId db) uid ops = Except.ok db2) :
    vnums db2 (freshFileId db) = List.range' 1 (ops.length + 1) := by
  have h1 := upload_vnums db uid fn sz pid db1 hfresh hup
  have h2 := runVOps_ok ops db1 db2 (freshFileId db) uid 1 h1 hrun
  rwa [show 1 + ops.length = ops.length + 1 from by omega] at h2

/-- C8 witness: upload then one content update and one restore yield
version numbers exactly [1, 2, 3]. -/
theorem version_numbers_are_contiguous_witness :
    runVOps dbUpl1 1 1 [VOp.createV none, VOp.restoreV 1] = Except.ok dbVer2 ∧
    vnums dbVer2 1 = List.range' 1 3 :=
  ⟨by decide,
   version_numbers_are_contiguous dbUpl dbUpl1 dbVer2 1 ("t.txt") 5 none
     [VOp.createV none, VOp.restoreV 1] (by decide) (by decide) (by decide)⟩

end MyDrive
